import Mathlib

/-!
Verification of the work-distribution core of the GO-Tutorial repository.

The central executable artifact is the worker-pool program (`Job`, `Result`,
`worker`, `main` with buffered `jobs`/`results` channels). We embed it as a
labelled transition system over an explicit pool state: the producer sends
jobs into a bounded FIFO buffer, closes the buffer once everything is sent,
and a fixed set of workers receive jobs and append results. The auxiliary
models (a bounded queue with an error-returning Submit/Close surface, a
cancellation scope, a worker boundary that recovers panics) follow the
specification's component design where the repository only demonstrates the
ingredients; the channel-pipeline worker and the nil-interface pitfall are
embedded directly from their files.
-/

namespace WorkerPool

/-- A unit of work, as in the worker-pool program: an identifier and a
filename payload. -/
structure Job where
  ID : Nat
  Filename : String
deriving DecidableEq

/-- A completed unit of work: the originating job's identifier, a status
string and the wall-clock duration of the execution. -/
structure Result where
  JobID : Nat
  Status : String
  Duration : Nat
deriving DecidableEq

/-- The result a worker sends after processing job `j` in `d` time units:
`Result{JobID: job.ID, Status: "Success", Duration: time.Since(start)}`. -/
def mkResult (j : Job) (d : Nat) : Result :=
  ⟨j.ID, "Success", d⟩

/-- The status of one worker goroutine: blocked on the jobs channel,
processing a received job, or exited after the channel closed and drained. -/
inductive WStatus
  | idle
  | busy (j : Job)
  | stopped
deriving DecidableEq

/-- Global state of the worker-pool program: the producer's remaining jobs,
the contents of the buffered `jobs` channel (front = oldest), whether that
channel has been closed, the status of each worker, the results collected so
far, and (ghost) the jobs received from the channel in reception order. -/
structure PoolState where
  toSubmit : List Job
  queue : List Job
  closed : Bool
  workers : List WStatus
  results : List Result
  dequeued : List Job
deriving DecidableEq

/-- One atomic step of the worker-pool program with jobs-channel capacity
`cap`:
* `produce`: the producer sends the next job; a send on a buffered channel
  completes only while the buffer holds fewer than `cap` values.
* `closeCh`: the producer closes the jobs channel after sending everything.
* `dequeue`: an idle worker receives the oldest buffered job.
* `finish`: a busy worker completes its job in wall-clock time `d` and
  sends the result.
* `exitw`: an idle worker observes the channel closed and drained, and its
  `range` loop terminates. -/
inductive Step (cap : Nat) : PoolState → PoolState → Prop
  | produce {s : PoolState} {j : Job} {rest : List Job}
      (hts : s.toSubmit = j :: rest) (hc : s.closed = false)
      (hlen : s.queue.length < cap) :
      Step cap s { s with toSubmit := rest, queue := s.queue ++ [j] }
  | closeCh {s : PoolState}
      (hts : s.toSubmit = []) (hc : s.closed = false) :
      Step cap s { s with closed := true }
  | dequeue {s : PoolState} {w : Nat} {j : Job} {rest : List Job}
      (hw : s.workers[w]? = some WStatus.idle) (hq : s.queue = j :: rest) :
      Step cap s { s with queue := rest,
                          workers := s.workers.set w (WStatus.busy j),
                          dequeued := s.dequeued ++ [j] }
  | finish {s : PoolState} {w : Nat} {j : Job} (d : Nat)
      (hw : s.workers[w]? = some (WStatus.busy j)) :
      Step cap s { s with workers := s.workers.set w WStatus.idle,
                          results := s.results ++ [mkResult j d] }
  | exitw {s : PoolState} {w : Nat}
      (hw : s.workers[w]? = some WStatus.idle)
      (hc : s.closed = true) (hq : s.queue = []) :
      Step cap s { s with workers := s.workers.set w WStatus.stopped }

/-- Initial state: the producer holds the whole job list, the channel is
empty and open, all `n` workers are blocked on the empty channel. -/
def initState (js : List Job) (n : Nat) : PoolState :=
  ⟨js, [], false, List.replicate n WStatus.idle, [], []⟩

/-- States reachable by the worker-pool program started on job list `js`
with `n` workers and jobs-channel capacity `cap`. -/
def Reachable (cap : Nat) (js : List Job) (n : Nat) (s : PoolState) : Prop :=
  Relation.ReflTransGen (Step cap) (initState js n) s

/-- Terminal state: everything submitted, channel closed and drained, every
worker's `range` loop has exited. -/
def Terminal (s : PoolState) : Prop :=
  s.toSubmit = [] ∧ s.queue = [] ∧ s.closed = true ∧
    ∀ w ∈ s.workers, w = WStatus.stopped

/-- The jobs currently being processed by some worker. -/
def busyJobs : List WStatus → List Job
  | [] => []
  | WStatus.busy j :: rest => j :: busyJobs rest
  | WStatus.idle :: rest => busyJobs rest
  | WStatus.stopped :: rest => busyJobs rest

/-- The inductive invariant of the worker-pool transition system: the queue
respects its capacity, reception order extends to the submission order, a
closed channel means the producer is finished, every received job is either
in flight or accounted for by exactly one result, and results only report
success. -/
structure Inv (cap : Nat) (js : List Job) (s : PoolState) : Prop where
  cap_ok : s.queue.length ≤ cap
  order : s.dequeued ++ s.queue ++ s.toSubmit = js
  closed_sub : s.closed = true → s.toSubmit = []
  account : List.Perm
      (s.results.map Result.JobID ++ (busyJobs s.workers).map Job.ID)
      (s.dequeued.map Job.ID)
  status_ok : ∀ r ∈ s.results, r.Status = "Success"

/-- First demo job, as produced by the worker-pool program's main loop. -/
def j1 : Job := ⟨1, "data_1.csv"⟩

/-- Second demo job. -/
def j2 : Job := ⟨2, "data_2.csv"⟩

/-- Two demo jobs submitted in identifier order. -/
def jsDemo : List Job := [j1, j2]

/-- Stages of one complete run with one worker and capacity two. -/
def st0 : PoolState := ⟨[j1, j2], [], false, [WStatus.idle], [], []⟩

def st1 : PoolState := ⟨[j2], [j1], false, [WStatus.idle], [], []⟩

def st2 : PoolState := ⟨[], [j1, j2], false, [WStatus.idle], [], []⟩

def st3 : PoolState := ⟨[], [j1, j2], true, [WStatus.idle], [], []⟩

def st4 : PoolState := ⟨[], [j2], true, [WStatus.busy j1], [], [j1]⟩

def st5 : PoolState := ⟨[], [j2], true, [WStatus.idle], [mkResult j1 5], [j1]⟩

def st6 : PoolState :=
  ⟨[], [], true, [WStatus.busy j2], [mkResult j1 5], [j1, j2]⟩

def st7 : PoolState :=
  ⟨[], [], true, [WStatus.idle], [mkResult j1 5, mkResult j2 7], [j1, j2]⟩

/-- The terminal state of the demo run. -/
def stFinal : PoolState :=
  ⟨[], [], true, [WStatus.stopped], [mkResult j1 5, mkResult j2 7], [j1, j2]⟩

end WorkerPool

namespace BoundedQueue

open WorkerPool

/-- Modelled from the spec: the BoundedQueue of §4.2 — a fixed capacity, a
FIFO buffer of pending jobs, and a one-shot closed flag. The repository only
demonstrates the underlying buffered-channel mechanism; the error-returning
`Submit`/`Dequeue`/`Close` surface is absent from the source files and is
taken from the specification's contract. -/
structure BQ where
  cap : Nat
  buf : List Job
  closed : Bool
deriving DecidableEq

/-- Outcome of a completed `Submit`. -/
inductive SubmitOutcome
  | accepted (q : BQ)
  | queueClosed
  | cancelledErr
deriving DecidableEq

/-- Outcome of a completed `Dequeue`. -/
inductive DequeueOutcome
  | got (j : Job) (q : BQ)
  | drained
  | cancelledErr
deriving DecidableEq

/-- Modelled from the spec: `Submit(job) -> error` blocks until a slot
frees, the queue is closed, or the caller's scope is cancelled, whichever
first. `none` is the still-blocked case (no wake-up condition holds yet);
`some` is the value the call completes with. -/
def submit (q : BQ) (c : Bool) (j : Job) : Option SubmitOutcome :=
  if q.closed then some SubmitOutcome.queueClosed
  else if c then some SubmitOutcome.cancelledErr
  else if q.buf.length < q.cap then
    some (SubmitOutcome.accepted { q with buf := q.buf ++ [j] })
  else none

/-- Modelled from the spec: `Dequeue(scope) -> (job, ok)` blocks until a job
is available, the queue is closed-and-drained, or the scope cancels. -/
def dequeue (q : BQ) (c : Bool) : Option DequeueOutcome :=
  match q.buf with
  | j :: rest => some (DequeueOutcome.got j { q with buf := rest })
  | [] =>
    if q.closed then some DequeueOutcome.drained
    else if c then some DequeueOutcome.cancelledErr
    else none

/-- Modelled from the spec: `Close()` guarded by a one-shot closed flag, so
a second call finds the flag set and does nothing. -/
def closeQ (q : BQ) : BQ :=
  if q.closed then q else { q with closed := true }

end BoundedQueue

namespace CancellationScope

/-- Why a scope became done: manual cancellation or deadline expiry. -/
inductive Cause
  | cancelledCause
  | deadlineExceeded
deriving DecidableEq

/-- Modelled from the spec: a CancellationScope as in §4.4 — an optional
absolute deadline, the current clock reading, and the recorded cause of
cancellation (`none` while the scope is live). The repository uses the Go
standard-library context package, whose implementation is not among the
source files; the model follows the specification's contract. -/
structure Scope where
  deadline : Option Nat
  now : Nat
  fault : Option Cause
deriving DecidableEq

/-- A fresh scope with deadline `dl` at clock reading `n`. -/
def mkScope (dl : Option Nat) (n : Nat) : Scope :=
  ⟨dl, n, none⟩

/-- Modelled from the spec: `Cancel()` records the cancellation cause via a
one-shot compare-and-swap — a later call finds the fault set and changes
nothing. -/
def cancel (s : Scope) : Scope :=
  match s.fault with
  | some _ => s
  | none => { s with fault := some Cause.cancelledCause }

/-- Modelled from the spec: the passage of `d` time units; when the deadline
passes while the scope is still live the scope records
`deadlineExceeded`. -/
def tick (s : Scope) (d : Nat) : Scope :=
  match s.fault with
  | some _ => { s with now := s.now + d }
  | none =>
    match s.deadline with
    | some t =>
      if t ≤ s.now + d then
        { s with now := s.now + d, fault := some Cause.deadlineExceeded }
      else { s with now := s.now + d }
    | none => { s with now := s.now + d }

/-- `Err()`: `none` before cancellation, the recorded cause after. -/
def errOf (s : Scope) : Option Cause := s.fault

/-- `Done()` has fired. -/
def isDone (s : Scope) : Bool := s.fault.isSome

/-- Anything that can happen to a scope: a (possibly repeated) `Cancel()`
call or the passage of time. -/
inductive SStep : Scope → Scope → Prop
  | cancelStep (s : Scope) : SStep s (cancel s)
  | tickStep (s : Scope) (d : Nat) : SStep s (tick s d)

/-- Iterated scope events. -/
def SReach (s s' : Scope) : Prop := Relation.ReflTransGen SStep s s'

end CancellationScope

namespace PanicBoundary

/-- What a job's action does when executed: return a payload, return an
error, or panic with a value. -/
inductive ActionBehavior
  | ok (payload : Nat)
  | fails (msg : String)
  | panics (v : String)
deriving DecidableEq

/-- A job together with the behavior of its action. -/
structure PJob where
  ID : Nat
  action : ActionBehavior
deriving DecidableEq

/-- Classified execution error: the action's own error, or a recovered
panic. -/
inductive RunError
  | actionError (msg : String)
  | panicError (v : String)
deriving DecidableEq

/-- The result a worker emits for one job. -/
structure RunResult where
  jobID : Nat
  payload : Option Nat
  runError : Option RunError
deriving DecidableEq

/-- Modelled from the spec: §4.3 — the worker executes `Job.Action` inside a
deferred `recover` (the same-goroutine recover pattern of the defer/panic
demo), so a panic is converted into a Result with a `PanicError`
classification instead of unwinding out of the worker. -/
def execJob (j : PJob) : RunResult :=
  match j.action with
  | ActionBehavior.ok p => ⟨j.ID, some p, none⟩
  | ActionBehavior.fails m => ⟨j.ID, none, some (RunError.actionError m)⟩
  | ActionBehavior.panics v => ⟨j.ID, none, some (RunError.panicError v)⟩

/-- The worker loop over its share of the queue: one result per job, in
order; no job's behavior can terminate the loop early. -/
def workerRun : List PJob → List RunResult
  | [] => []
  | j :: rest => execJob j :: workerRun rest

/-- Whether a result records a recovered panic. -/
def isPanicResult (r : RunResult) : Bool :=
  match r.runError with
  | some (RunError.panicError _) => true
  | _ => false

end PanicBoundary

namespace TestingConcurrency

/-- The channel-pipeline worker of the concurrency test file:
`for v := range input { output <- v * 2 }`, embedded as the sequence of
values sent on `output` given the sequence of values received from
`input`. -/
def worker : List Int → List Int
  | [] => []
  | v :: rest => v * 2 :: worker rest

end TestingConcurrency

namespace NilInterface

/-- A Go `error` interface value as in the nil-interfaces demo: either the
nil interface (no dynamic type) or a `*CustomError` stored in the interface
— itself either the nil pointer or a pointer carrying a message. -/
inductive ErrValue
  | nilInterface
  | customError (p : Option String)
deriving DecidableEq

/-- Go's `err == nil` on an `error` interface value: true only when both the
dynamic type and the value are nil; an interface holding a typed nil pointer
is not equal to nil. -/
def eqNil : ErrValue → Bool
  | ErrValue.nilInterface => true
  | ErrValue.customError _ => false

/-- `doWork` of the nil-interfaces demo: the no-failure path declares
`var err *CustomError = nil` and returns it as `error`, wrapping a typed nil
in the interface. -/
def doWork (fail : Bool) : ErrValue :=
  if fail then ErrValue.customError (some "work failed")
  else ErrValue.customError none

/-- `doWorkFixed`: the no-failure path returns the literal `nil`. -/
def doWorkFixed (fail : Bool) : ErrValue :=
  if fail then ErrValue.customError (some "work failed")
  else ErrValue.nilInterface

end NilInterface

namespace WorkerPool

theorem busyJobs_set_busy (ws : List WStatus) (w : Nat) (j : Job)
    (h : ws[w]? = some WStatus.idle) :
    List.Perm (busyJobs (ws.set w (WStatus.busy j))) (j :: busyJobs ws) := by
  induction ws generalizing w with
  | nil => simp at h
  | cons a tl ih =>
    cases w with
    | zero =>
      simp only [List.getElem?_cons_zero, Option.some.injEq] at h
      subst h
      simp [List.set, busyJobs]
    | succ k =>
      simp only [List.getElem?_cons_succ] at h
      have htl := ih k h
      cases a with
      | idle => simpa [List.set, busyJobs] using htl
      | stopped => simpa [List.set, busyJobs] using htl
      | busy b =>
        simp only [List.set, busyJobs]
        exact (htl.cons b).trans (List.Perm.swap j b _)

theorem busyJobs_set_idle (ws : List WStatus) (w : Nat) (j : Job)
    (h : ws[w]? = some (WStatus.busy j)) :
    List.Perm (busyJobs ws) (j :: busyJobs (ws.set w WStatus.idle)) := by
  induction ws generalizing w with
  | nil => simp at h
  | cons a tl ih =>
    cases w with
    | zero =>
      simp only [List.getElem?_cons_zero, Option.some.injEq] at h
      subst h
      simp [List.set, busyJobs]
    | succ k =>
      simp only [List.getElem?_cons_succ] at h
      have htl := ih k h
      cases a with
      | idle => simpa [List.set, busyJobs] using htl
      | stopped => simpa [List.set, busyJobs] using htl
      | busy b =>
        simp only [List.set, busyJobs]
        exact ((htl.cons b).trans (List.Perm.swap j b _))

theorem busyJobs_set_stopped (ws : List WStatus) (w : Nat)
    (h : ws[w]? = some WStatus.idle) :
    busyJobs (ws.set w WStatus.stopped) = busyJobs ws := by
  induction ws generalizing w with
  | nil => simp at h
  | cons a tl ih =>
    cases w with
    | zero =>
      simp only [List.getElem?_cons_zero, Option.some.injEq] at h
      subst h
      simp [List.set, busyJobs]
    | succ k =>
      simp only [List.getElem?_cons_succ] at h
      have htl := ih k h
      cases a with
      | idle => simp [List.set, busyJobs, htl]
      | stopped => simp [List.set, busyJobs, htl]
      | busy b => simp [List.set, busyJobs, htl]

theorem busyJobs_replicate_idle (n : Nat) :
    busyJobs (List.replicate n WStatus.idle) = [] := by
  induction n with
  | zero => rfl
  | succ k ih => simpa [List.replicate_succ, busyJobs] using ih

theorem inv_initState (cap : Nat) (js : List Job) (n : Nat) :
    Inv cap js (initState js n) := by
  refine ⟨?_, ?_, ?_, ?_, ?_⟩ <;>
    simp [initState, busyJobs_replicate_idle]

theorem inv_step {cap : Nat} {js : List Job} {s s' : PoolState}
    (hinv : Inv cap js s) (hstep : Step cap s s') : Inv cap js s' := by
  obtain ⟨hcap, horder, hclosed, haccount, hstatus⟩ := hinv
  cases hstep with
  | @produce j rest hts hc hlen =>
    refine ⟨?_, ?_, ?_, ?_, ?_⟩
    · simpa using hlen
    · rw [hts] at horder
      simp only [List.append_assoc] at horder ⊢
      simpa using horder
    · simp [hc]
    · simpa using haccount
    · simpa using hstatus
  | closeCh hts hc =>
    exact ⟨hcap, horder, fun _ => hts, haccount, hstatus⟩
  | @dequeue w j rest hw hq =>
    refine ⟨?_, ?_, ?_, ?_, ?_⟩
    · have hlt : rest.length < s.queue.length := by simp [hq]
      exact Nat.le_of_lt (Nat.lt_of_lt_of_le hlt hcap)
    · rw [hq] at horder
      simp only [List.append_assoc] at horder ⊢
      simpa using horder
    · simpa using hclosed
    · have hb := (busyJobs_set_busy s.workers w j hw).map Job.ID
      simp only [List.map_cons] at hb
      simp only [List.map_append, List.map_cons, List.map_nil]
      refine (hb.append_left (s.results.map Result.JobID)).trans ?_
      refine (List.perm_middle).trans ?_
      refine (haccount.cons j.ID).trans ?_
      exact (List.perm_append_singleton j.ID (s.dequeued.map Job.ID)).symm
    · simpa using hstatus
  | @finish w j d hw =>
    refine ⟨hcap, by simpa using horder, by simpa using hclosed, ?_, ?_⟩
    · have hb := (busyJobs_set_idle s.workers w j hw).map Job.ID
      simp only [List.map_cons] at hb
      have h1 : List.Perm
          (s.results.map Result.JobID ++
            (j.ID :: (busyJobs (s.workers.set w WStatus.idle)).map Job.ID))
          (s.dequeued.map Job.ID) :=
        (hb.symm.append_left (s.results.map Result.JobID)).trans haccount
      simpa [mkResult, List.append_assoc] using h1
    · intro r hr
      simp only [List.mem_append, List.mem_singleton] at hr
      rcases hr with hr | hr
      · exact hstatus r hr
      · simp [hr, mkResult]
  | @exitw w hw hc hq =>
    refine ⟨hcap, by simpa using horder, by simpa using hclosed, ?_,
      by simpa using hstatus⟩
    simpa [busyJobs_set_stopped s.workers w hw] using haccount

theorem inv_reachable {cap : Nat} {js : List Job} {n : Nat} {s : PoolState}
    (h : Reachable cap js n s) : Inv cap js s := by
  induction h with
  | refl => exact inv_initState cap js n
  | tail _ hstep ih => exact inv_step ih hstep

theorem busyJobs_eq_nil_of_stopped {ws : List WStatus}
    (h : ∀ w ∈ ws, w = WStatus.stopped) : busyJobs ws = [] := by
  induction ws with
  | nil => rfl
  | cons a tl ih =>
    have ha := h a (List.mem_cons_self a tl)
    subst ha
    exact ih fun w hw => h w (List.mem_cons_of_mem _ hw)

theorem dequeued_eq_of_terminal {cap n : Nat} {js : List Job}
    {s : PoolState} (h : Reachable cap js n s) (ht : Terminal s) :
    s.dequeued = js := by
  obtain ⟨hts, hq, _, _⟩ := ht
  have ho := (inv_reachable h).order
  rw [hts, hq] at ho
  simpa using ho

theorem results_perm_of_terminal {cap n : Nat} {js : List Job}
    {s : PoolState} (h : Reachable cap js n s) (ht : Terminal s) :
    List.Perm (s.results.map Result.JobID) (js.map Job.ID) := by
  have hacc := (inv_reachable h).account
  rw [busyJobs_eq_nil_of_stopped ht.2.2.2] at hacc
  simp only [List.map_nil, List.append_nil] at hacc
  rwa [dequeued_eq_of_terminal h ht] at hacc

/-- Claim C1 — exactly-once execution: in any complete run of the worker
pool (all jobs submitted, the jobs channel closed and drained, every worker
exited), each job with a distinct identifier is accounted for by exactly one
result whose `JobID` equals that job's `ID`: a job is consumed by exactly
one worker and yields exactly one result, and no job is executed twice. -/
theorem exactly_once {cap n : Nat} {js : List Job} {s : PoolState}
    (h : Reachable cap js n s) (ht : Terminal s)
    (hnd : (js.map Job.ID).Nodup) :
    ∀ j ∈ js, (s.results.map Result.JobID).count j.ID = 1 := by
  intro j hj
  have hperm := results_perm_of_terminal h ht
  rw [hperm.count_eq j.ID]
  exact List.count_eq_one_of_mem hnd (List.mem_map_of_mem Job.ID hj)

/-- Claim C2 — capacity invariant: in every reachable state of the worker
pool, the number of jobs resident in the jobs channel never exceeds the
capacity fixed at construction; moreover any step that grows the buffer (a
completed send) is only possible from a state with a free slot, so a send
onto a full buffer cannot complete until a receive frees a slot. -/
theorem capacity_invariant {cap n : Nat} {js : List Job} {s : PoolState}
    (h : Reachable cap js n s) :
    s.queue.length ≤ cap ∧
      ∀ t t' : PoolState, Step cap t t' →
        t.queue.length < t'.queue.length → t.queue.length < cap := by
  refine ⟨(inv_reachable h).cap_ok, ?_⟩
  intro t t' hstep hgrow
  cases hstep with
  | @produce j rest hts hc hlen => exact hlen
  | closeCh hts hc => exact absurd hgrow (lt_irrefl _)
  | @dequeue w j rest hw hq =>
    have hgrow' : t.queue.length < rest.length := hgrow
    rw [hq] at hgrow'
    simp only [List.length_cons] at hgrow'
    omega
  | @finish w j d hw => exact absurd hgrow (lt_irrefl _)
  | @exitw w hw hc hq => exact absurd hgrow (lt_irrefl _)

/-- Claim C3 — FIFO invariant: in every reachable state of the worker pool,
the sequence of jobs received from the jobs channel so far is exactly the
corresponding prefix of the submission sequence — a job enqueued before
another is dequeued before it, with no reordering. -/
theorem fifo_order {cap n : Nat} {js : List Job} {s : PoolState}
    (h : Reachable cap js n s) :
    s.dequeued = js.take s.dequeued.length := by
  have ho := (inv_reachable h).order
  rw [List.append_assoc] at ho
  rw [← ho, List.take_left]

/-- Claim C6 — graceful shutdown drains fully: in any complete run, all
submitted jobs' results are observed before the workers finish exiting (one
result per submitted job, by identifier), and a Submit attempted on a closed
bounded queue returns the QueueClosed error. -/
theorem graceful_drain {cap n : Nat} {js : List Job} {s : PoolState}
    (h : Reachable cap js n s) (ht : Terminal s) :
    s.results.length = js.length ∧
      List.Perm (s.results.map Result.JobID) (js.map Job.ID) ∧
      ∀ (q : BoundedQueue.BQ) (c : Bool) (j : Job),
        q.closed = true →
          BoundedQueue.submit q c j =
            some BoundedQueue.SubmitOutcome.queueClosed := by
  have hperm := results_perm_of_terminal h ht
  refine ⟨?_, hperm, ?_⟩
  · have hlen := hperm.length_eq
    simpa using hlen
  · intro q c j hclq
    simp [BoundedQueue.submit, hclq]

theorem step_st0_st1 : Step 2 st0 st1 :=
  Step.produce rfl rfl (by decide)

theorem step_st1_st2 : Step 2 st1 st2 :=
  Step.produce rfl rfl (by decide)

theorem step_st2_st3 : Step 2 st2 st3 :=
  Step.closeCh rfl rfl

theorem step_st3_st4 : Step 2 st3 st4 :=
  Step.dequeue (w := 0) rfl rfl

theorem step_st4_st5 : Step 2 st4 st5 :=
  Step.finish (w := 0) 5 rfl

theorem step_st5_st6 : Step 2 st5 st6 :=
  Step.dequeue (w := 0) rfl rfl

theorem step_st6_st7 : Step 2 st6 st7 :=
  Step.finish (w := 0) 7 rfl

theorem step_st7_stFinal : Step 2 st7 stFinal :=
  Step.exitw (w := 0) rfl rfl rfl

theorem reachable_stFinal : Reachable 2 jsDemo 1 stFinal :=
  Relation.ReflTransGen.tail
    (Relation.ReflTransGen.tail
      (Relation.ReflTransGen.tail
        (Relation.ReflTransGen.tail
          (Relation.ReflTransGen.tail
            (Relation.ReflTransGen.tail
              (Relation.ReflTransGen.tail
                (Relation.ReflTransGen.tail Relation.ReflTransGen.refl
                  step_st0_st1)
                step_st1_st2)
              step_st2_st3)
            step_st3_st4)
          step_st4_st5)
        step_st5_st6)
      step_st6_st7)
    step_st7_stFinal

theorem terminal_stFinal : Terminal stFinal := by
  refine ⟨rfl, rfl, rfl, ?_⟩
  intro w hw
  simpa [stFinal] using hw

theorem nodup_jsDemo : (jsDemo.map Job.ID).Nodup := by
  decide

/-- Witness for C1: the two-job demo run ends with exactly one result whose
`JobID` is job 1's identifier. -/
theorem exactly_once_witness :
    (stFinal.results.map Result.JobID).count j1.ID = 1 :=
  exactly_once reachable_stFinal terminal_stFinal nodup_jsDemo j1
    (List.mem_cons_self j1 [j2])

/-- Witness for C2: applied to the terminal state of the demo run. -/
theorem capacity_invariant_witness :
    stFinal.queue.length ≤ 2 ∧
      ∀ t t' : PoolState, Step 2 t t' →
        t.queue.length < t'.queue.length → t.queue.length < 2 :=
  capacity_invariant reachable_stFinal

/-- Witness for C3: applied to the terminal state of the demo run. -/
theorem fifo_order_witness :
    stFinal.dequeued = jsDemo.take stFinal.dequeued.length :=
  fifo_order reachable_stFinal

/-- Witness for C6: applied to the terminal state of the demo run. -/
theorem graceful_drain_witness :
    stFinal.results.length = jsDemo.length ∧
      List.Perm (stFinal.results.map Result.JobID) (jsDemo.map Job.ID) ∧
      ∀ (q : BoundedQueue.BQ) (c : Bool) (j : Job),
        q.closed = true →
          BoundedQueue.submit q c j =
            some BoundedQueue.SubmitOutcome.queueClosed :=
  graceful_drain reachable_stFinal terminal_stFinal

end WorkerPool

namespace BoundedQueue

open WorkerPool

/-- Claim C5 — Submit contract: a Submit that has not completed is still
blocked (the queue is open, the scope live and the buffer full); a completed
Submit returns QueueClosed exactly when the queue is closed, Cancelled
exactly when the queue is open but the scope is cancelled, and otherwise
succeeds by appending the job at the back of the buffer — so no submitted
job is ever silently dropped: it either lands in the buffer or the caller
gets an error. -/
theorem submit_contract (q : BQ) (c : Bool) (j : Job) :
    (submit q c j = none →
        q.closed = false ∧ c = false ∧ q.cap ≤ q.buf.length) ∧
      (submit q c j = some SubmitOutcome.queueClosed ↔ q.closed = true) ∧
      (submit q c j = some SubmitOutcome.cancelledErr ↔
        q.closed = false ∧ c = true) ∧
      ∀ q', submit q c j = some (SubmitOutcome.accepted q') →
        q'.buf = q.buf ++ [j] ∧ q'.cap = q.cap ∧ q'.closed = false ∧
          q.buf.length < q.cap := by
  unfold submit
  rcases hcl : q.closed with _ | _
  · rcases hc : c with _ | _
    · by_cases hlen : q.buf.length < q.cap
      · refine ⟨by simp [hlen], by simp [hlen], by simp [hlen], ?_⟩
        intro q' hq'
        simp only [if_neg Bool.false_ne_true, if_pos hlen,
          Option.some.injEq, SubmitOutcome.accepted.injEq] at hq'
        subst hq'
        exact ⟨rfl, rfl, rfl, hlen⟩
      · refine ⟨?_, by simp [hlen], by simp [hlen], ?_⟩
        · intro _
          exact ⟨rfl, rfl, Nat.le_of_not_lt hlen⟩
        · intro q' hq'
          simp [hlen] at hq'
    · refine ⟨by simp, by simp, by simp [hcl], ?_⟩
      intro q' hq'
      simp at hq'
  · refine ⟨by simp, by simp [hcl], by simp [hcl], ?_⟩
    intro q' hq'
    simp at hq'

/-- Witness-style instance for C5: on a one-slot open queue with a live
scope, Submit succeeds and the job is at the back of the buffer. -/
theorem submit_contract_example :
    submit ⟨1, [], false⟩ false ⟨7, "data_7.csv"⟩ =
      some (SubmitOutcome.accepted ⟨1, [⟨7, "data_7.csv"⟩], false⟩) := by
  rfl

/-- Claim C7 — Close is idempotent-safe: closing twice equals closing once
(the one-shot flag makes the second call a no-op, so nothing panics and no
state is corrupted — buffer and capacity are untouched), a Submit after
Close returns QueueClosed, and the jobs already buffered are still drained
by Dequeue in order. -/
theorem close_idempotent (q : BQ) :
    closeQ (closeQ q) = closeQ q ∧
      (closeQ q).buf = q.buf ∧
      (closeQ q).cap = q.cap ∧
      (closeQ q).closed = true ∧
      (∀ c j, submit (closeQ q) c j = some SubmitOutcome.queueClosed) ∧
      ∀ j rest, q.buf = j :: rest →
        dequeue (closeQ q) false =
          some (DequeueOutcome.got j ⟨q.cap, rest, true⟩) := by
  rcases hcl : q.closed with _ | _
  · refine ⟨by simp [closeQ, hcl], by simp [closeQ, hcl],
      by simp [closeQ, hcl], by simp [closeQ, hcl], ?_, ?_⟩
    · intro c j
      simp [closeQ, submit, hcl]
    · intro j rest hbuf
      simp [closeQ, dequeue, hcl, hbuf]
  · refine ⟨by simp [closeQ, hcl], by simp [closeQ, hcl],
      by simp [closeQ, hcl], by simp [closeQ, hcl], ?_, ?_⟩
    · intro c j
      simp [closeQ, submit, hcl]
    · intro j rest hbuf
      have hq : closeQ q = q := by simp [closeQ, hcl]
      rw [hq, dequeue, hbuf]
      have : q = ⟨q.cap, q.buf, q.closed⟩ := rfl
      simp [hcl, hbuf]

end BoundedQueue

namespace CancellationScope

theorem cancel_none {s : Scope} (h : s.fault = none) :
    cancel s = { s with fault := some Cause.cancelledCause } := by
  unfold cancel
  rw [h]

theorem cancel_some {s : Scope} {c : Cause} (h : s.fault = some c) :
    cancel s = s := by
  unfold cancel
  rw [h]

theorem tick_some {s : Scope} {c : Cause} (h : s.fault = some c) (d : Nat) :
    tick s d = { s with now := s.now + d } := by
  unfold tick
  rw [h]

theorem sstep_preserves_fault {s s' : Scope} (hstep : SStep s s')
    (h : s.fault.isSome = true) : s'.fault = s.fault := by
  obtain ⟨c, hc⟩ := Option.isSome_iff_exists.mp h
  cases hstep with
  | cancelStep => rw [cancel_some hc]
  | tickStep d => rw [tick_some hc d]

theorem sreach_preserves_fault {s s' : Scope} (hreach : SReach s s')
    (h : s.fault.isSome = true) : s'.fault = s.fault := by
  induction hreach with
  | refl => rfl
  | tail hab hstep ih =>
    exact (sstep_preserves_fault hstep (ih.symm ▸ h)).trans ih

/-- Claim C8 — cancellation monotonicity: a fresh scope's `Err()` is `nil`;
`Cancel()` makes the scope done with a `Cancelled` (or, if the deadline had
already fired, the earlier) cause, and a repeated `Cancel()` is the identity
— exactly one effective transition; and once a scope is done, no further
event (more cancels, more time) ever changes `Err()` back — in particular it
never reverts to `nil`. -/
theorem cancellation_monotonic :
    (∀ dl n, errOf (mkScope dl n) = none) ∧
      (∀ s : Scope, cancel (cancel s) = cancel s) ∧
      (∀ s : Scope, isDone (cancel s) = true) ∧
      (∀ s : Scope, s.fault = none →
        errOf (cancel s) = some Cause.cancelledCause) ∧
      ∀ s s' : Scope, SReach s s' → isDone s = true → errOf s' = errOf s := by
  refine ⟨fun dl n => rfl, ?_, ?_, ?_, ?_⟩
  · intro s
    cases hf : s.fault with
    | none =>
      have h1 := cancel_none hf
      rw [h1]
      exact cancel_some rfl
    | some c =>
      have h1 := cancel_some hf
      rw [h1]
      exact h1
  · intro s
    cases hf : s.fault with
    | none => rw [cancel_none hf]; rfl
    | some c =>
      rw [cancel_some hf]
      unfold isDone
      rw [hf]
      rfl
  · intro s hf
    rw [cancel_none hf]
    rfl
  · intro s s' hreach hdone
    exact sreach_preserves_fault hreach hdone

end CancellationScope

namespace PanicBoundary

theorem workerRun_append (a b : List PJob) :
    workerRun (a ++ b) = workerRun a ++ workerRun b := by
  induction a with
  | nil => rfl
  | cons j rest ih => simp [workerRun, ih]

theorem workerRun_length (a : List PJob) :
    (workerRun a).length = a.length := by
  induction a with
  | nil => rfl
  | cons j rest ih => simp [workerRun, ih]

/-- Claim C4 — no panic propagation: when the worker's queue share contains
a job whose action panics, the worker still emits one result per job in
order; the panicking job's result carries the `PanicError` classification
and that job's identifier, and the jobs after it are processed exactly as
they would be on their own — the worker loop does not terminate because of
the panic. -/
theorem panic_not_propagated (pre post : List PJob) (j : PJob) (v : String)
    (hp : j.action = ActionBehavior.panics v) :
    workerRun (pre ++ j :: post) =
        workerRun pre ++ execJob j :: workerRun post ∧
      isPanicResult (execJob j) = true ∧
      (execJob j).jobID = j.ID ∧
      (workerRun (pre ++ j :: post)).length =
        pre.length + 1 + post.length := by
  refine ⟨by simp [workerRun_append, workerRun], ?_, ?_, ?_⟩
  · simp [execJob, hp, isPanicResult]
  · simp [execJob, hp]
  · rw [workerRun_length]
    simp
    omega

/-- Witness for C4: a three-job queue whose middle job panics still yields
three results, the middle one classified as a recovered panic. -/
theorem panic_not_propagated_witness :
    workerRun [⟨1, ActionBehavior.ok 10⟩, ⟨2, ActionBehavior.panics "boom"⟩,
          ⟨3, ActionBehavior.ok 30⟩] =
        workerRun [⟨1, ActionBehavior.ok 10⟩] ++
          execJob ⟨2, ActionBehavior.panics "boom"⟩ ::
            workerRun [⟨3, ActionBehavior.ok 30⟩] ∧
      isPanicResult (execJob ⟨2, ActionBehavior.panics "boom"⟩) = true ∧
      (execJob ⟨2, ActionBehavior.panics "boom"⟩).jobID = 2 ∧
      (workerRun [⟨1, ActionBehavior.ok 10⟩,
          ⟨2, ActionBehavior.panics "boom"⟩,
          ⟨3, ActionBehavior.ok 30⟩]).length = 1 + 1 + 1 :=
  panic_not_propagated [⟨1, ActionBehavior.ok 10⟩]
    [⟨3, ActionBehavior.ok 30⟩] ⟨2, ActionBehavior.panics "boom"⟩ "boom" rfl

end PanicBoundary

namespace TestingConcurrency

/-- Claim C10 — single-worker pipeline determinism: the channel-pipeline
worker produces exactly one output per input, each output is twice its
input, and outputs appear in exactly the input order; on the test's input
1..5 the outputs are 2,4,6,8,10. -/
theorem worker_pipeline_deterministic (input : List Int) :
    worker input = input.map (fun v => v * 2) ∧
      (worker input).length = input.length ∧
      worker [1, 2, 3, 4, 5] = [2, 4, 6, 8, 10] := by
  refine ⟨?_, ?_, by rfl⟩
  · induction input with
    | nil => rfl
    | cons v rest ih => simp [worker, ih]
  · induction input with
    | nil => rfl
    | cons v rest ih => simp [worker, ih]

end TestingConcurrency

namespace NilInterface

/-- Counterexample to claim C9 as stated: `doWork(false)` does not return an
error comparing equal to nil — it returns the interface holding a typed nil
`*CustomError`, which Go's `err == nil` rejects. -/
theorem nilerr_counterexample :
    ¬(eqNil (doWork false) = true ∧ eqNil (doWorkFixed false) = true) := by
  decide

/-- Claim C9 as amended: only `doWorkFixed(false)` returns a true none —
an error comparing equal to nil; `doWork(false)`, the demo's deliberately
broken version, wraps a typed nil in the interface and its result does not
compare equal to nil (the pitfall the file demonstrates). -/
theorem nilerr_amended :
    eqNil (doWorkFixed false) = true ∧
      eqNil (doWork false) = false ∧
      doWork false = ErrValue.customError none ∧
      ∀ b, eqNil (doWork b) = false := by
  refine ⟨rfl, rfl, rfl, ?_⟩
  intro b
  cases b <;> rfl

end NilInterface
